import Mathlib

/-!
Verification development for the utility routines in src/util.cpp:
the GoPro file grouper `Util::sortedFileList` with its static helper
predicates, `Util::removeFileScheme`, `Util::coerceMultiple`,
`Util::isNumeric` / `Util::convertNumericString`, and the partial file
hasher `Util::getFileHash`.

Qt strings (`QString`) are modelled as lists of characters, URLs
(`QUrl`) as the raw string they were constructed from, and the
filesystem seen by the hasher as a partial map from paths to byte
lists.  All definitions are executable.
-/

/-- A QString, modelled as its sequence of characters. -/
abbrev QStr := List Char

/-- Models QString::toUpper (character-wise uppercasing). -/
def qToUpper (s : QStr) : QStr := s.map Char.toUpper

/-- Value of a hexadecimal digit character, if it is one. -/
def percentHexVal (c : Char) : Option Nat :=
  if '0' ≤ c ∧ c ≤ '9' then some (c.toNat - 48)
  else if 'A' ≤ c ∧ c ≤ 'F' then some (c.toNat - 55)
  else if 'a' ≤ c ∧ c ≤ 'f' then some (c.toNat - 87)
  else none

/-- Models QUrl::fromPercentEncoding: decodes %XY escapes, leaving
malformed escapes and other characters unchanged. -/
def percentDecode : QStr → QStr
  | '%' :: a :: b :: rest =>
    match percentHexVal a, percentHexVal b with
    | some x, some y => Char.ofNat (16 * x + y) :: percentDecode rest
    | _, _ => '%' :: percentDecode (a :: b :: rest)
  | c :: rest => c :: percentDecode rest
  | [] => []

/-- Characters allowed after the first character of a URL scheme. -/
def isSchemeTailChar (c : Char) : Bool :=
  c.isAlpha || c.isDigit || c == '+' || c == '-' || c == '.'

/-- Models QUrl::scheme(): the lowercased text before the first colon when
that text is a well-formed scheme, otherwise empty. -/
def schemeOf (u : QStr) : QStr :=
  let pre := u.takeWhile (fun c => c != ':')
  if pre.length < u.length && !pre.isEmpty &&
      (pre.headD 'a').isAlpha && pre.all isSchemeTailChar
  then pre.map Char.toLower else []

/-- Models QUrl::toString(QUrl::PreferLocalFile) for a file URL with an
empty authority: the leading "file://" is removed and percent escapes
are decoded. -/
def preferLocalFile (u : QStr) : QStr := percentDecode (u.drop 7)

/-- Util::removeFileScheme from src/util.cpp: take the URL string, replace
it by the local-file form when the scheme is "file", then percent-decode. -/
def removeFileScheme (u : QStr) : QStr :=
  let path := if schemeOf u = "file".toList then preferLocalFile u else u
  percentDecode path

/-- Models QFileInfo::fileName(): the part after the last directory
separator. -/
def qFileName (p : QStr) : QStr :=
  (p.reverse.takeWhile (fun c => c != '/')).reverse

/-- Models QFileInfo::baseName(): the file name up to (excluding) the
first dot. -/
def qBaseName (p : QStr) : QStr :=
  (qFileName p).takeWhile (fun c => c != '.')

/-- Models QFileInfo::suffix(): the file name after the last dot, or empty
when the file name has no dot. -/
def qSuffix (p : QStr) : QStr :=
  let rev := (qFileName p).reverse
  if rev.contains '.' then (rev.takeWhile (fun c => c != '.')).reverse else []

/-- Static helper isValidGoProFirstFilePrefix from src/util.cpp.  Note the
source tests the candidate's whole base name, uppercased, for membership
in the list of first-file markers. -/
def isValidGoProFirstFilePrefix (info : QStr) : Bool :=
  let list := ["GOPR".toList, "GH01".toList, "GS01".toList]
  list.contains (qToUpper (qBaseName info))

/-- Static helper isValidGoProPrefix from src/util.cpp.  As in the source,
the whole base name, uppercased, is tested for membership in the list. -/
def isValidGoProPrefix (info : QStr) : Bool :=
  let list := ["GP".toList, "GH".toList, "GS".toList]
  list.contains (qToUpper (qBaseName info))

/-- Static helper isValidGoProSuffix from src/util.cpp. -/
def isValidGoProSuffix (info : QStr) : Bool :=
  let list := ["MP4".toList, "LRV".toList, "360".toList]
  list.contains (qToUpper (qSuffix info))

/-- QMap<QString, QStringList>, modelled as an association list kept
ordered by key, as QMap iteration is. -/
abbrev GoProMap := List (QStr × List QStr)

/-- Lexicographic comparison of QStrings (QString::operator<). -/
def qstrLt : QStr → QStr → Bool
  | [], [] => false
  | [], _ :: _ => true
  | _ :: _, [] => false
  | x :: xs, y :: ys => if x = y then qstrLt xs ys else decide (x < y)

/-- goproFiles[key] << value: appends to the entry for the key, creating
the entry when absent, and keeps the map ordered by key as QMap does. -/
def qmapAppend : GoProMap → QStr → QStr → GoProMap
  | [], k, v => [(k, [v])]
  | (k₁, vs) :: rest, k, v =>
    if k = k₁ then (k₁, vs ++ [v]) :: rest
    else if qstrLt k k₁ then (k, [v]) :: (k₁, vs) :: rest
    else (k₁, vs) :: qmapAppend rest k v

/-- QMap::contains. -/
def qmapContains (m : GoProMap) (k : QStr) : Bool := m.any (fun e => e.1 == k)

/-- Lookup of goproFiles[key] for reading (empty list when absent). -/
def qmapGet (m : GoProMap) (k : QStr) : List QStr :=
  ((m.find? (fun e => e.1 == k)).map Prod.snd).getD []

/-- Insertion step of an insertion sort on QStrings. -/
def insertSorted (x : QStr) : List QStr → List QStr
  | [] => [x]
  | y :: ys => if qstrLt y x then y :: insertSorted x ys else x :: y :: ys

/-- QStringList::sort(Qt::CaseSensitive): ascending order by
QString::operator<. -/
def qsort (l : List QStr) : List QStr := l.foldr insertSorted []

/-- Body of the first loop of Util::sortedFileList: collect GoPro main
files into the map keyed by the stem's last four characters. -/
def goproFirstPass (m : GoProMap) (url : QStr) : GoProMap :=
  let fi := removeFileScheme url
  if (qBaseName fi).length == 8 && isValidGoProSuffix fi &&
      isValidGoProFirstFilePrefix fi
  then qmapAppend m ((qBaseName fi).drop 4) fi else m

/-- Body of the second loop of Util::sortedFileList: append GoPro split
files to an already existing, non-empty group. -/
def goproSecondPass (m : GoProMap) (url : QStr) : GoProMap :=
  let fi := removeFileScheme url
  if (qBaseName fi).length == 8 && isValidGoProSuffix fi &&
      isValidGoProPrefix fi then
    let goproNumber := (qBaseName fi).drop 4
    if qmapContains m goproNumber && !(qmapGet m goproNumber).isEmpty
    then qmapAppend m goproNumber fi else m
  else m

/-- Body of the final loop of Util::sortedFileList: emit a file unless it
already sits inside an emitted GoPro group. -/
def trailingKeep (m : GoProMap) (url : QStr) : Option QStr :=
  let fi := removeFileScheme url
  if (qBaseName fi).length == 8 && isValidGoProSuffix fi &&
      ( isValidGoProFirstFilePrefix fi || isValidGoProPrefix fi) then
    let goproNumber := (qBaseName fi).drop 4
    if qmapContains m goproNumber && (qmapGet m goproNumber).contains fi
    then none else some fi
  else some fi

/-- Util::sortedFileList from src/util.cpp: two collection passes over the
inputs, per-group sorting, and emission of the groups followed by the
remaining files. -/
def sortedFileList (urls : List QStr) : List QStr :=
  let gopro1 := urls.foldl goproFirstPass []
  let gopro2 := urls.foldl goproSecondPass gopro1
  let gopro3 := gopro2.map (fun e => (e.1, qsort e.2))
  let result := (gopro3.map Prod.snd).flatten
  result ++ urls.filterMap (trailingKeep gopro3)

/-- Util::coerceMultiple from src/util.cpp (C++ int arithmetic, modelled
over the mathematical integers on which the claim's inputs stay within
the defined range). -/
def coerceMultiple (value multiple : Int) : Int :=
  (value + multiple - 1) / multiple * multiple

/-- Util::isDecimalPoint from src/util.cpp (the Unicode decimal-separator
characters are written by code point). -/
def isDecimalPoint (ch : Char) : Bool :=
  ch == '.' || ch == ',' || ch == Char.ofNat 39 || ch == ' '
    || ch == Char.ofNat 0xB7 || ch == Char.ofNat 0x2009 || ch == Char.ofNat 0x202F
    || ch == Char.ofNat 0x2D9 || ch == Char.ofNat 0x66B || ch == Char.ofNat 0x66C
    || ch == Char.ofNat 0x2396

/-- Util::isNumeric from src/util.cpp: the loop returns false at the first
character that is none of sign, e/E, decimal point, or digit. -/
def isNumeric (str : QStr) : Bool :=
  str.all fun ch =>
    !(ch != '+' && ch != '-' && ch.toLower != 'e' &&
      !(isDecimalPoint ch) && !(ch.isDigit))

/-- Loop body of Util::convertNumericString: each decimal-point character
other than the requested one is replaced, and the flag records whether
any replacement happened. -/
def convertChars (decimalPoint : Char) : QStr → QStr × Bool
  | [] => ([], false)
  | ch :: rest =>
    let tail := convertChars decimalPoint rest
    if ch != decimalPoint && isDecimalPoint ch
    then (decimalPoint :: tail.1, true)
    else (ch :: tail.1, tail.2)

/-- Util::convertNumericString from src/util.cpp: returns the (possibly
modified) string together with the changed flag. -/
def convertNumericString (str : QStr) (decimalPoint : Char) : QStr × Bool :=
  if isNumeric str then convertChars decimalPoint str else (str, false)

/-- Left rotation of a 32-bit word. -/
def rotl32 (x n : Nat) : Nat :=
  ((x <<< n) ||| (x >>> (32 - n))) % 4294967296

/-- Per-round sine-derived constants of MD5 (RFC 1321), used to model
QCryptographicHash::hash(..., QCryptographicHash::Md5). -/
def md5K : List Nat :=
  [0xd76aa478, 0xe8c7b756, 0x242070db, 0xc1bdceee,
   0xf57c0faf, 0x4787c62a, 0xa8304613, 0xfd469501,
   0x698098d8, 0x8b44f7af, 0xffff5bb1, 0x895cd7be,
   0x6b901122, 0xfd987193, 0xa679438e, 0x49b40821,
   0xf61e2562, 0xc040b340, 0x265e5a51, 0xe9b6c7aa,
   0xd62f105d, 0x02441453, 0xd8a1e681, 0xe7d3fbc8,
   0x21e1cde6, 0xc33707d6, 0xf4d50d87, 0x455a14ed,
   0xa9e3e905, 0xfcefa3f8, 0x676f02d9, 0x8d2a4c8a,
   0xfffa3942, 0x8771f681, 0x6d9d6122, 0xfde5380c,
   0xa4beea44, 0x4bdecfa9, 0xf6bb4b60, 0xbebfbc70,
   0x289b7ec6, 0xeaa127fa, 0xd4ef3085, 0x04881d05,
   0xd9d4d039, 0xe6db99e5, 0x1fa27cf8, 0xc4ac5665,
   0xf4292244, 0x432aff97, 0xab9423a7, 0xfc93a039,
   0x655b59c3, 0x8f0ccc92, 0xffeff47d, 0x85845dd1,
   0x6fa87e4f, 0xfe2ce6e0, 0xa3014314, 0x4e0811a1,
   0xf7537e82, 0xbd3af235, 0x2ad7d2bb, 0xeb86d391]

/-- Per-round shift amounts of MD5. -/
def md5S : List Nat :=
  [7, 12, 17, 22, 7, 12, 17, 22, 7, 12, 17, 22, 7, 12, 17, 22,
   5, 9, 14, 20, 5, 9, 14, 20, 5, 9, 14, 20, 5, 9, 14, 20,
   4, 11, 16, 23, 4, 11, 16, 23, 4, 11, 16, 23, 4, 11, 16, 23,
   6, 10, 15, 21, 6, 10, 15, 21, 6, 10, 15, 21, 6, 10, 15, 21]

/-- State of the MD5 compression function: four 32-bit words. -/
structure MD5State where
  a : Nat
  b : Nat
  c : Nat
  d : Nat

/-- Initial MD5 chaining value. -/
def md5Init : MD5State := ⟨0x67452301, 0xefcdab89, 0x98badcfe, 0x10325476⟩

/-- Little-endian 32-bit word from up to four bytes. -/
def wordLE (bs : List Nat) : Nat :=
  bs.getD 0 0 + 256 * bs.getD 1 0 + 65536 * bs.getD 2 0 + 16777216 * bs.getD 3 0

/-- The sixteen message words of a 64-byte chunk. -/
def chunkWords (chunk : List Nat) : List Nat :=
  (List.range 16).map fun i => wordLE ((chunk.drop (4 * i)).take 4)

/-- One of the 64 MD5 operations. -/
def md5Round (M : List Nat) (st : MD5State) (i : Nat) : MD5State :=
  let f :=
    if i < 16 then (st.b &&& st.c) ||| ((4294967295 ^^^ st.b) &&& st.d)
    else if i < 32 then (st.d &&& st.b) ||| ((4294967295 ^^^ st.d) &&& st.c)
    else if i < 48 then st.b ^^^ st.c ^^^ st.d
    else st.c ^^^ (st.b ||| (4294967295 ^^^ st.d))
  let g :=
    if i < 16 then i
    else if i < 32 then (5 * i + 1) % 16
    else if i < 48 then (3 * i + 5) % 16
    else (7 * i) % 16
  let x := (f + st.a + md5K.getD i 0 + M.getD g 0) % 4294967296
  ⟨st.d, (st.b + rotl32 x (md5S.getD i 0)) % 4294967296, st.b, st.c⟩

/-- MD5 compression of one 64-byte chunk. -/
def md5Chunk (st : MD5State) (chunk : List Nat) : MD5State :=
  let M := chunkWords chunk
  let r := (List.range 64).foldl (md5Round M) st
  ⟨(st.a + r.a) % 4294967296, (st.b + r.b) % 4294967296,
   (st.c + r.c) % 4294967296, (st.d + r.d) % 4294967296⟩

/-- Eight little-endian bytes of the 64-bit message bit length. -/
def lenBytes (n : Nat) : List Nat :=
  (List.range 8).map fun i => (n >>> (8 * i)) % 256

/-- MD5 padding: a 0x80 byte, zeros to 56 mod 64, then the bit length. -/
def md5Pad (msg : List Nat) : List Nat :=
  msg ++ [128] ++ List.replicate ((120 - (msg.length + 1) % 64) % 64) 0 ++
    lenBytes ((8 * msg.length) % 18446744073709551616)

/-- Split a byte list into 64-byte chunks. -/
def chunks64 (l : List Nat) : List (List Nat) :=
  if l = [] then [] else l.take 64 :: chunks64 (l.drop 64)
termination_by l.length
decreasing_by
  simp only [List.length_drop]
  have : l.length ≠ 0 := fun h => by
    simp [List.length_eq_zero.mp h] at *
  omega

/-- Hexadecimal digit character (lowercase), as QByteArray::toHex uses. -/
def hexDigit (n : Nat) : Char :=
  if n < 10 then Char.ofNat (48 + n) else Char.ofNat (87 + n)

/-- Two lowercase hex characters of one byte. -/
def toHexByte (b : Nat) : List Char := [hexDigit (b / 16), hexDigit (b % 16)]

/-- Models QByteArray::toHex: lowercase hex rendering of a byte list. -/
def bytesToHex (bs : List Nat) : List Char := (bs.map toHexByte).flatten

/-- Little-endian bytes of one 32-bit word. -/
def word2bytesLE (w : Nat) : List Nat :=
  [w % 256, (w >>> 8) % 256, (w >>> 16) % 256, (w >>> 24) % 256]

/-- Serialization of the final MD5 state: the four words little-endian,
rendered in lowercase hex. -/
def md5Final (st : MD5State) : List Char :=
  bytesToHex (word2bytesLE st.a ++ word2bytesLE st.b ++
    word2bytesLE st.c ++ word2bytesLE st.d)

/-- Models QCryptographicHash::hash(data, Md5).toHex(): the MD5 digest of a
byte list, rendered as 32 lowercase hexadecimal characters. -/
def md5 (msg : List Nat) : List Char :=
  md5Final ((chunks64 (md5Pad msg)).foldl md5Chunk md5Init)

/-- Lowercase hexadecimal characters. -/
def isLowerHex (c : Char) : Bool := c.isDigit || ('a' ≤ c && c ≤ 'f')

/-- The filesystem visible to Util::getFileHash: paths map to the byte
contents of a readable file, or to none when opening fails. -/
abbrev FileSys := QStr → Option (List Nat)

/-- Util::getFileHash from src/util.cpp: on open failure the empty string;
for files over 2,000,000 bytes the digest of the first million bytes
concatenated with the bytes from position size − 1,000,000 onward (the
seek target of the source); otherwise the digest of the whole file. -/
def getFileHash (fs : FileSys) (path : QStr) : QStr :=
  match fs path with
  | some data =>
    let fileData :=
      if data.length > 1000000 * 2
      then data.take 1000000 ++ data.drop (data.length - 1000000)
      else data
    md5 fileData
  | none => []

theorem percentDecode_example : percentDecode "a%20b".toList = "a b".toList := by decide

theorem removeFileScheme_example :
    removeFileScheme "file:///tmp/a%20b.mov".toList = "/tmp/a b.mov".toList := by decide

theorem qBaseName_example : qBaseName "dir/GOPR0012.MP4".toList = "GOPR0012".toList := by decide

theorem qSuffix_example : qSuffix "dir/GOPR0012.MP4".toList = "MP4".toList := by decide

theorem map_eq_self_of {α : Type} (l : List α) (f : α → α) (h : ∀ x ∈ l, f x = x) :
    l.map f = l := by
  induction l with
  | nil => rfl
  | cons x t ih =>
    simp only [List.map_cons]
    rw [h x (by simp), ih (fun y hy => h y (by simp [hy]))]

theorem map_ne_of_mem {α : Type} (f : α → α) (x : α) (hfx : f x ≠ x) :
    ∀ l : List α, x ∈ l → l.map f ≠ l := by
  intro l
  induction l with
  | nil => intro hx; cases hx
  | cons y t ih =>
    intro hx he
    rw [List.map_cons] at he
    injection he with h1 h2
    rcases List.mem_cons.mp hx with rfl | hx2
    · exact hfx h1
    · exact ih hx2 h2

theorem foldl_fixpoint {α β : Type} (f : α → β → α) (x : α) (h : ∀ u, f x u = x) :
    ∀ l : List β, l.foldl f x = x := by
  intro l
  induction l with
  | nil => rfl
  | cons u t ih => rw [List.foldl_cons, h u, ih]

theorem goproFirstCheck_false (p : QStr) (h : (qBaseName p).length = 8) :
    isValidGoProFirstFilePrefix p = false := by
  simp only [ isValidGoProFirstFilePrefix]
  apply Bool.eq_false_iff.mpr
  intro hc
  have hm := List.mem_of_elem_eq_true hc
  have hl : (qToUpper (qBaseName p)).length = 8 := by
    simp [qToUpper, h]
  rcases (by simpa using hm :
      qToUpper (qBaseName p) = "GOPR".toList ∨
      qToUpper (qBaseName p) = "GH01".toList ∨
      qToUpper (qBaseName p) = "GS01".toList) with h1 | h1 | h1 <;>
    rw [h1] at hl <;> exact absurd hl (by decide)

theorem goproPrefixCheck_false (p : QStr) (h : (qBaseName p).length = 8) :
    isValidGoProPrefix p = false := by
  simp only [ isValidGoProPrefix]
  apply Bool.eq_false_iff.mpr
  intro hc
  have hm := List.mem_of_elem_eq_true hc
  have hl : (qToUpper (qBaseName p)).length = 8 := by
    simp [qToUpper, h]
  rcases (by simpa using hm :
      qToUpper (qBaseName p) = "GP".toList ∨
      qToUpper (qBaseName p) = "GH".toList ∨
      qToUpper (qBaseName p) = "GS".toList) with h1 | h1 | h1 <;>
    rw [h1] at hl <;> exact absurd hl (by decide)

theorem goproFirstPass_id (m : GoProMap) (u : QStr) : goproFirstPass m u = m := by
  have hcond : ∀ p : QStr,
      ((qBaseName p).length == 8 && isValidGoProSuffix p &&
        isValidGoProFirstFilePrefix p) = false := by
    intro p
    by_cases h8 : (qBaseName p).length = 8
    · rw [goproFirstCheck_false p h8, Bool.and_false]
    · rw [beq_false_of_ne h8, Bool.false_and, Bool.false_and]
  simp only [goproFirstPass, hcond]
  simp

theorem goproSecondPass_nil (u : QStr) : goproSecondPass [] u = [] := by
  simp [goproSecondPass, qmapContains]

theorem trailingKeep_nil (u : QStr) : trailingKeep [] u = some (removeFileScheme u) := by
  simp [trailingKeep, qmapContains]

theorem sortedFileList_eq (urls : List QStr) :
    sortedFileList urls = urls.map removeFileScheme := by
  simp only [sortedFileList]
  rw [foldl_fixpoint goproFirstPass [] (goproFirstPass_id []),
    foldl_fixpoint goproSecondPass [] goproSecondPass_nil]
  simp only [List.map_nil, List.flatten_nil, List.nil_append]
  induction urls with
  | nil => rfl
  | cons u t ih => simp [List.filterMap_cons, trailingKeep_nil, ih]

theorem hexDigit_isLowerHex : ∀ n, n < 16 → isLowerHex (hexDigit n) = true := by decide

theorem toHexByte_ok (b : Nat) (hb : b < 256) :
    (toHexByte b).length = 2 ∧ (toHexByte b).all isLowerHex = true := by
  refine ⟨rfl, ?_⟩
  have h1 : b / 16 < 16 := by omega
  have h2 : b % 16 < 16 := by omega
  simp [toHexByte, hexDigit_isLowerHex _ h1, hexDigit_isLowerHex _ h2]

theorem bytesToHex_ok (bs : List Nat) (h : ∀ x ∈ bs, x < 256) :
    (bytesToHex bs).length = 2 * bs.length ∧ (bytesToHex bs).all isLowerHex = true := by
  induction bs with
  | nil => exact ⟨rfl, rfl⟩
  | cons b t ih =>
    have hb : b < 256 := h b (by simp)
    have iht := ih (fun x hx => h x (by simp [hx]))
    have hcons : bytesToHex (b :: t) = toHexByte b ++ bytesToHex t := by
      simp [bytesToHex]
    constructor
    · rw [hcons, List.length_append, (toHexByte_ok b hb).1, iht.1]
      simp [List.length_cons]
      omega
    · rw [hcons, List.all_append, (toHexByte_ok b hb).2, iht.2]
      rfl

theorem word2bytesLE_lt (w : Nat) : ∀ x ∈ word2bytesLE w, x < 256 := by
  intro x hx
  simp only [word2bytesLE, List.mem_cons, List.not_mem_nil, or_false] at hx
  rcases hx with rfl | rfl | rfl | rfl <;> omega

theorem md5Final_ok (st : MD5State) :
    (md5Final st).length = 32 ∧ (md5Final st).all isLowerHex = true := by
  have hlt : ∀ x ∈ word2bytesLE st.a ++ word2bytesLE st.b ++
      word2bytesLE st.c ++ word2bytesLE st.d, x < 256 := by
    intro x hx
    simp only [List.mem_append] at hx
    rcases hx with ((h | h) | h) | h <;> exact word2bytesLE_lt _ x h
  have h := bytesToHex_ok _ hlt
  have hlen : (word2bytesLE st.a ++ word2bytesLE st.b ++
      word2bytesLE st.c ++ word2bytesLE st.d).length = 16 := by
    simp [word2bytesLE]
  constructor
  · show (bytesToHex _).length = 32
    rw [h.1, hlen]
  · exact h.2

theorem md5_ok (msg : List Nat) :
    (md5 msg).length = 32 ∧ (md5 msg).all isLowerHex = true := md5Final_ok _

theorem convertChars_fst (d : Char) (s : QStr) :
    (convertChars d s).1 =
      s.map fun ch => if ch != d && isDecimalPoint ch then d else ch := by
  induction s with
  | nil => rfl
  | cons ch t ih =>
    show (if ch != d && isDecimalPoint ch
        then (d :: (convertChars d t).1, true)
        else (ch :: (convertChars d t).1, (convertChars d t).2)).1 =
      (if ch != d && isDecimalPoint ch then d else ch) ::
        (t.map fun c => if c != d && isDecimalPoint c then d else c)
    by_cases hc : (ch != d && isDecimalPoint ch) = true
    · rw [if_pos hc, if_pos hc, ih]
    · rw [if_neg hc, if_neg hc, ih]

theorem convertChars_snd (d : Char) (s : QStr) :
    (convertChars d s).2 = s.any fun ch => ch != d && isDecimalPoint ch := by
  induction s with
  | nil => rfl
  | cons ch t ih =>
    show (if ch != d && isDecimalPoint ch
        then (d :: (convertChars d t).1, true)
        else (ch :: (convertChars d t).1, (convertChars d t).2)).2 =
      ((ch != d && isDecimalPoint ch) || t.any fun c => c != d && isDecimalPoint c)
    by_cases hc : (ch != d && isDecimalPoint ch) = true
    · rw [if_pos hc, hc, Bool.true_or]
    · have hf : (ch != d && isDecimalPoint ch) = false := by
        revert hc; cases (ch != d && isDecimalPoint ch) <;> simp
      rw [if_neg hc, hf, Bool.false_or, ih]

/-- Claim C1: the spec reads "a candidate is a first file if its stem's first 4
characters are one of GOPR, GH01, GS01".  The code instead tests the whole
8-character stem, uppercased, for membership in that list of 4-character
markers, so the test can never succeed on a qualifying candidate: GOPR0012.MP4
meets every condition of the claim, yet isValidGoProFirstFilePrefix rejects it
and the first collection pass of Util::sortedFileList leaves the group map
empty instead of inserting the path under key "0012". -/
theorem claim_c1_first_file_never_classified :
    qToUpper ((qBaseName "GOPR0012.MP4".toList).take 4) = "GOPR".toList ∧
    (qBaseName "GOPR0012.MP4".toList).length = 8 ∧
    isValidGoProSuffix "GOPR0012.MP4".toList = true ∧
    isValidGoProFirstFilePrefix "GOPR0012.MP4".toList = false ∧
    List.foldl goproFirstPass [] ["GOPR0012.MP4".toList] = [] := by decide

/-- Claim C2: the spec reads "a candidate is a continuation file if its stem
matches one of the 2-character markers GP, GH, GS".  The code tests the whole
8-character stem, uppercased, against those 2-character strings, so no
candidate ever qualifies: GP020012.MP4 meets every condition of the claim, yet
isValidGoProPrefix rejects it and the second collection pass appends nothing,
even with the matching first file GOPR0012.MP4 present. -/
theorem claim_c2_continuation_never_classified :
    qToUpper ((qBaseName "GP020012.MP4".toList).take 2) = "GP".toList ∧
    (qBaseName "GP020012.MP4".toList).length = 8 ∧
    isValidGoProSuffix "GP020012.MP4".toList = true ∧
    isValidGoProPrefix "GP020012.MP4".toList = false ∧
    List.foldl goproSecondPass
      (List.foldl goproFirstPass [] ["GOPR0012.MP4".toList, "GP020012.MP4".toList])
      ["GOPR0012.MP4".toList, "GP020012.MP4".toList] = [] := by decide

/-- Claim C3: the claimed output for the clip GOPR0012.MP4, GP020012.MP4,
GP030012.MP4 plus clip.mov is the grouped sequence ahead of the unrelated
file for any input order.  Because the prefix checks never match (claims C1
and C2), Util::sortedFileList groups nothing and returns the inputs in their
original order, which differs from the claimed sequence for this input
order. -/
theorem claim_c3_ordering_bug :
    sortedFileList
      ["clip.mov".toList, "GOPR0012.MP4".toList,
        "GP020012.MP4".toList, "GP030012.MP4".toList] =
      ["clip.mov".toList, "GOPR0012.MP4".toList,
        "GP020012.MP4".toList, "GP030012.MP4".toList] ∧
    sortedFileList
      ["clip.mov".toList, "GOPR0012.MP4".toList,
        "GP020012.MP4".toList, "GP030012.MP4".toList] ≠
      ["GOPR0012.MP4".toList, "GP020012.MP4".toList,
        "GP030012.MP4".toList, "clip.mov".toList] := by decide

/-- Claim C4: the multiset of file references in the output of
Util::sortedFileList equals the multiset of input file references (each input
URL contributing its normalized path): no duplication, no loss. -/
theorem claim_c4_multiset_preserved (urls : List QStr) :
    (↑(sortedFileList urls) : Multiset QStr) = ↑(urls.map removeFileScheme) := by
  rw [sortedFileList_eq]

/-- Claim C5: Util::getFileHash hashes a bounded sample: for a readable file
strictly larger than 2,000,000 bytes the digest is the MD5 of the first
1,000,000 bytes concatenated with the bytes from position size − 1,000,000 to
the end; for a readable file of at most 2,000,000 bytes it is the MD5 of the
whole contents. -/
theorem claim_c5_bounded_sample (fs : FileSys) (p : QStr) (data : List Nat)
    (h : fs p = some data) :
    (2000000 < data.length →
      getFileHash fs p = md5 (data.take 1000000 ++ data.drop (data.length - 1000000))) ∧
    (data.length ≤ 2000000 → getFileHash fs p = md5 data) := by
  have hred : getFileHash fs p =
      md5 (if data.length > 1000000 * 2
        then data.take 1000000 ++ data.drop (data.length - 1000000) else data) := by
    unfold getFileHash
    rw [h]
  constructor
  · intro hgt
    rw [hred, if_pos (by omega : data.length > 1000000 * 2)]
  · intro hle
    rw [hred, if_neg (by omega : ¬data.length > 1000000 * 2)]

theorem claim_c5_witness :
    getFileHash (fun _ => some (List.replicate 2000001 0)) [] =
      md5 ((List.replicate 2000001 (0 : Nat)).take 1000000 ++
        (List.replicate 2000001 (0 : Nat)).drop
          ((List.replicate 2000001 (0 : Nat)).length - 1000000)) ∧
    getFileHash (fun _ => some [1, 2, 3]) [] = md5 [1, 2, 3] :=
  ⟨(claim_c5_bounded_sample _ [] (List.replicate 2000001 0) rfl).1 (by norm_num),
   (claim_c5_bounded_sample _ [] [1, 2, 3] rfl).2 (by norm_num)⟩

/-- Claim C6: for a path that cannot be opened Util::getFileHash returns the
empty string (total, no fault); for a readable file it returns the MD5 digest
rendered as 32 lowercase hexadecimal characters. -/
theorem claim_c6_failure_and_format (fs : FileSys) (p : QStr) :
    (fs p = none → getFileHash fs p = []) ∧
    (∀ data, fs p = some data →
      (getFileHash fs p).length = 32 ∧ (getFileHash fs p).all isLowerHex = true) := by
  constructor
  · intro h
    unfold getFileHash
    rw [h]
  · intro data h
    have hred : getFileHash fs p =
        md5 (if data.length > 1000000 * 2
          then data.take 1000000 ++ data.drop (data.length - 1000000) else data) := by
      unfold getFileHash
      rw [h]
    rw [hred]
    exact md5_ok _

theorem claim_c6_witness :
    getFileHash (fun _ => none) [] = [] ∧
    (getFileHash (fun _ => some [0]) []).length = 32 ∧
    (getFileHash (fun _ => some [0]) []).all isLowerHex = true :=
  ⟨(claim_c6_failure_and_format (fun _ => none) []).1 rfl,
   ((claim_c6_failure_and_format (fun _ => some [0]) []).2 [0] rfl).1,
   ((claim_c6_failure_and_format (fun _ => some [0]) []).2 [0] rfl).2⟩

/-- Claim C7: when no input matches the GoPro candidate pattern (8-character
stem, extension in MP4/LRV/360, qualifying prefix) and the inputs are plain
path strings (fixed by the URL normalization), Util::sortedFileList returns
the input list unchanged, in the same order; the empty input yields the empty
output. -/
theorem claim_c7_no_gopro_identity (urls : List QStr)
    (hplain : ∀ u ∈ urls, removeFileScheme u = u)
    (hnone : ∀ u ∈ urls, ¬((qBaseName u).length = 8 ∧ isValidGoProSuffix u = true ∧
      ( isValidGoProFirstFilePrefix u = true ∨ isValidGoProPrefix u = true))) :
    sortedFileList urls = urls := by
  rw [sortedFileList_eq]
  exact map_eq_self_of urls removeFileScheme hplain

theorem claim_c7_witness :
    sortedFileList ["clip.mov".toList, "b/readme.txt".toList] =
      ["clip.mov".toList, "b/readme.txt".toList] ∧
    sortedFileList [] = [] :=
  ⟨claim_c7_no_gopro_identity _ (by decide) (by decide),
   claim_c7_no_gopro_identity [] (by decide) (by decide)⟩

/-- Claim C8 counterexample: the claim says the emitted string equals the input
string, with no file-scheme stripping and no percent-decoding.  The code runs
every input through Util::removeFileScheme, so the file URL
file:///tmp/a%20b.mov is emitted as the decoded local path /tmp/a b.mov, not
as the input string. -/
theorem claim_c8_counterexample :
    sortedFileList ["file:///tmp/a%20b.mov".toList] = ["/tmp/a b.mov".toList] ∧
    sortedFileList ["file:///tmp/a%20b.mov".toList] ≠
      ["file:///tmp/a%20b.mov".toList] := by decide

/-- Claim C8 (amended): every output entry of Util::sortedFileList is the
corresponding input URL normalized by Util::removeFileScheme (file scheme
stripped and percent-encoding decoded); inputs that are plain scheme-free
paths pass through unchanged. -/
theorem claim_c8_amended (urls : List QStr) :
    sortedFileList urls = urls.map removeFileScheme :=
  sortedFileList_eq urls

/-- Claim C9: for v ≥ 0 and m > 0, Util::coerceMultiple(v, m) is the least
multiple of m that is greater than or equal to v. -/
theorem claim_c9_coerce_multiple (v m : Int) (hv : 0 ≤ v) (hm : 0 < m) :
    m ∣ coerceMultiple v m ∧ v ≤ coerceMultiple v m ∧
    ∀ w : Int, m ∣ w → v ≤ w → coerceMultiple v m ≤ w := by
  obtain ⟨a, rfl⟩ := Int.eq_ofNat_of_zero_le hv
  obtain ⟨b, rfl⟩ := Int.eq_ofNat_of_zero_le (le_of_lt hm)
  have hb : 0 < b := by exact_mod_cast hm
  have key : coerceMultiple (a : Int) (b : Int) = (((a + b - 1) / b * b : Nat) : Int) := by
    unfold coerceMultiple
    have h1 : ((a : Int) + (b : Int) - 1) = ((a + b - 1 : Nat) : Int) := by omega
    rw [h1, ← Int.ofNat_ediv]
    norm_cast
  rw [key]
  refine ⟨?_, ?_, ?_⟩
  · exact_mod_cast Int.natCast_dvd_natCast.mpr (dvd_mul_left b ((a + b - 1) / b))
  · have : a ≤ (a + b - 1) / b * b := by
      have h1 := Nat.div_add_mod (a + b - 1) b
      have h2 := Nat.mod_lt (a + b - 1) hb
      rw [Nat.mul_comm]
      generalize hq : (a + b - 1) / b = q at h1 ⊢
      generalize hr : (a + b - 1) % b = r at h1 h2
      generalize ht : b * q = t at h1 ⊢
      omega
    exact_mod_cast this
  · intro w hw hvw
    obtain ⟨c, rfl⟩ := Int.eq_ofNat_of_zero_le (le_trans hv hvw)
    obtain ⟨k, hk⟩ := Int.natCast_dvd_natCast.mp hw
    have hak : a ≤ b * k := by omega
    have hfin : (a + b - 1) / b * b ≤ c := by
      have hq : (a + b - 1) / b ≤ k := by
        rw [Nat.div_le_iff_le_mul_add_pred hb]
        generalize ht : b * k = t at hak hk ⊢
        omega
      calc (a + b - 1) / b * b ≤ k * b := Nat.mul_le_mul_right _ hq
        _ = c := by rw [Nat.mul_comm]; omega
    exact_mod_cast hfin

theorem claim_c9_witness :
    (4 : Int) ∣ coerceMultiple 5 4 ∧ (5 : Int) ≤ coerceMultiple 5 4 ∧
    coerceMultiple 5 4 ≤ 8 :=
  ⟨(claim_c9_coerce_multiple 5 4 (by decide) (by decide)).1,
   (claim_c9_coerce_multiple 5 4 (by decide) (by decide)).2.1,
   (claim_c9_coerce_multiple 5 4 (by decide) (by decide)).2.2 8 (by decide) (by decide)⟩

/-- Claim C10: Util::convertNumericString replaces, when the string passes
Util::isNumeric, every recognized decimal-point character other than the
requested one by it, leaves all other characters unchanged, and returns true
exactly when the string was modified, which happens exactly when the string is
numeric and contains a recognized decimal-point character different from the
requested one. -/
theorem claim_c10_convert_numeric (s : QStr) (d : Char) :
    (convertNumericString s d).1 =
      (if isNumeric s
        then s.map fun ch => if ch != d && isDecimalPoint ch then d else ch
        else s) ∧
    (convertNumericString s d).2 =
      (isNumeric s && s.any fun ch => ch != d && isDecimalPoint ch) ∧
    ((convertNumericString s d).2 = true ↔ (convertNumericString s d).1 ≠ s) := by
  refine ⟨?_, ?_, ?_⟩
  · unfold convertNumericString
    by_cases hn : isNumeric s = true
    · rw [if_pos hn, if_pos hn]
      exact convertChars_fst d s
    · rw [if_neg hn, if_neg hn]
  · unfold convertNumericString
    by_cases hn : isNumeric s = true
    · rw [if_pos hn, hn, Bool.true_and]
      exact convertChars_snd d s
    · have hf : isNumeric s = false := by
        revert hn; cases isNumeric s <;> simp
      rw [if_neg hn, hf, Bool.false_and]
  · by_cases hn : isNumeric s = true
    · by_cases ha : (s.any fun ch => ch != d && isDecimalPoint ch) = true
      · have h2 : (convertNumericString s d).2 = true := by
          unfold convertNumericString
          rw [if_pos hn, convertChars_snd, ha]
        obtain ⟨ch, hmem, hch⟩ := List.any_eq_true.mp ha
        have hchd : ch ≠ d := by
          have hh := hch
          simp only [Bool.and_eq_true, bne_iff_ne] at hh
          exact hh.1
        have h1 : (convertNumericString s d).1 =
            s.map fun x => if x != d && isDecimalPoint x then d else x := by
          unfold convertNumericString
          rw [if_pos hn]
          exact convertChars_fst d s
        rw [h2, h1]
        exact iff_of_true rfl
          (map_ne_of_mem _ ch (by rw [if_pos hch]; exact fun he => hchd he.symm) s hmem)
      · have haf : (s.any fun ch => ch != d && isDecimalPoint ch) = false := by
          revert ha; cases (s.any fun ch => ch != d && isDecimalPoint ch) <;> simp
        have h2 : (convertNumericString s d).2 = false := by
          unfold convertNumericString
          rw [if_pos hn, convertChars_snd, haf]
        have h1 : (convertNumericString s d).1 = s := by
          unfold convertNumericString
          rw [if_pos hn, convertChars_fst]
          exact map_eq_self_of s _ fun x hx =>
            if_neg (by simpa using List.any_eq_false.mp haf x hx)
        rw [h2, h1]
        exact iff_of_false (by simp) (by simp)
    · have h12 : convertNumericString s d = (s, false) := by
        unfold convertNumericString
        rw [if_neg hn]
      rw [h12]
      exact iff_of_false (by simp) (by simp)

theorem claim_c10_witness :
    (convertNumericString "1,5".toList '.').1 = "1.5".toList ∧
    (convertNumericString "1,5".toList '.').2 = true ∧
    ((convertNumericString "1,5".toList '.').2 = true ↔
      (convertNumericString "1,5".toList '.').1 ≠ "1,5".toList) :=
  ⟨by rw [(claim_c10_convert_numeric "1,5".toList '.').1]; decide,
   by rw [(claim_c10_convert_numeric "1,5".toList '.').2.1]; decide,
   (claim_c10_convert_numeric "1,5".toList '.').2.2⟩
